import Mathlib

/-!
Verification of the NetExec dashboard core against its specification.

Shallow embedding of the aggregation/analytics engine
(`nxc/dashboard/db.py`), the paginator
(`nxc/dashboard/components/paginator.py`), the responsive layout engine
(`nxc/dashboard/components/responsive.py`) and the command-composition
component (`nxc/dashboard/components/command_builder.py`).

Python dict rows are modelled as records; a column that may be absent or
NULL is modelled as an `Option`; Python truthiness of such fields is made
explicit.  Python dicts keyed by strings (insertion ordered) are modelled
as association lists that preserve first-insertion order.
-/

set_option maxHeartbeats 1000000

namespace Dashboard

/-! ## Paginator (`components/paginator.py`) -/

/-- Result record returned by `Paginator.get_page`. -/
structure PaginationResult (α : Type) where
  items : List α
  page : Nat
  page_size : Nat
  total_items : Nat
  total_pages : Nat
  has_next : Bool
  has_prev : Bool
  deriving Repr, DecidableEq

/-- Mutable state of a `Paginator` (the fields read by `get_page`). -/
structure PagState where
  current_page : Nat
  page_size : Nat
  deriving Repr, DecidableEq

/-- `Paginator.get_page(page)`: optionally lower-clamp and store the
requested page, fetch from the data source at that page, compute
`total_pages = max(1, ceil(total / page_size))` with integer arithmetic
exactly as `(total + page_size - 1) // page_size`, then pull
`current_page` down to `total_pages` if it exceeds it.  Returns the result
record and the updated paginator state. -/
def getPage {α : Type} (ds : Nat → Nat → List α × Nat) (st : PagState)
    (page? : Option Int) : PaginationResult α × PagState :=
  let st1 : PagState :=
    match page? with
    | some p => { st with current_page := (max 1 p).toNat }
    | none => st
  let fetched := ds st1.current_page st1.page_size
  let items := fetched.1
  let total := fetched.2
  let total_pages := max 1 ((total + st1.page_size - 1) / st1.page_size)
  let cp := if st1.current_page > total_pages then total_pages else st1.current_page
  (⟨items, cp, st1.page_size, total, total_pages,
    decide (cp < total_pages), decide (cp > 1)⟩,
   { st1 with current_page := cp })

/-- The window of one page of a list: what every `get_*` query in
`db.py` returns via `lst[(page-1)*size : (page-1)*size + size]`. -/
def window {α : Type} (data : List α) (page size : Nat) : List α :=
  (data.drop ((page - 1) * size)).take size

/-- A data source backed by a concrete list, reporting the full length as
`total` and slicing the requested window (the shape of every
`DashboardDB.get_*` fetch). -/
def listSource {α : Type} (data : List α) (page size : Nat) : List α × Nat :=
  (window data page size, data.length)

end Dashboard

namespace Dashboard

/-- C1 counterexample: with 45 items and page size 20, requesting page 5
reports page 3 (the clamped page) but the returned items are the window of
the *requested* page 5, which is empty — not the window of clamped page 3,
which has 5 elements.  So "items are the window of that clamped page"
fails on the code. -/
theorem claim1_items_not_clamped_window :
    (getPage (listSource (List.range 45)) ⟨1, 20⟩ (some 5)).1.page = 3 ∧
    (getPage (listSource (List.range 45)) ⟨1, 20⟩ (some 5)).1.total_pages = 3 ∧
    (getPage (listSource (List.range 45)) ⟨1, 20⟩ (some 5)).1.items = [] ∧
    window (List.range 45)
      (getPage (listSource (List.range 45)) ⟨1, 20⟩ (some 5)).1.page 20 ≠ [] := by
  refine ⟨rfl, rfl, by decide, by decide⟩

/-- C1 (amended): `total_pages = max(1, ceil(total/page_size))` and the
reported page always lies in `[1, total_pages]` (page 0 and page 5 clamp as
claimed in the concrete scenario), but the items are the window fetched at
the lower-clamped requested page `max(1, n)` — the upper clamp applies only
to the reported page number, after the fetch. -/
theorem claim1_page_clamping {α : Type} (ds : Nat → Nat → List α × Nat)
    (st : PagState) (n : Int) :
    ((getPage ds st (some n)).1.total_pages =
      max 1 (((getPage ds st (some n)).1.total_items + st.page_size - 1) / st.page_size)) ∧
    1 ≤ (getPage ds st (some n)).1.page ∧
    (getPage ds st (some n)).1.page ≤ (getPage ds st (some n)).1.total_pages ∧
    (getPage ds st (some n)).1.items = (ds (max 1 n).toNat st.page_size).1 ∧
    (getPage (listSource (List.range 45)) ⟨1, 20⟩ (some 5)).1.page = 3 ∧
    (getPage (listSource (List.range 45)) ⟨1, 20⟩ (some 0)).1.page = 1 := by
  refine ⟨rfl, ?_, ?_, rfl, rfl, rfl⟩ <;>
    · simp only [getPage]
      split <;> omega

/-! ## Command builder (`components/command_builder.py`) -/

/-- A selected host row, as consumed by `build_command` (`ip` key). -/
structure HostData where
  ip : String
  deriving Repr, DecidableEq

/-- A selected credential row, as consumed by `build_command`.  Missing
dict keys default to `""` (and `credtype` to `"plaintext"`) in the source,
so the fields are plain strings here. -/
structure UserData where
  domain : String
  username : String
  password : String
  credtype : String
  deriving Repr, DecidableEq

/-- The selection fields of `CommandBuilder` read by `build_command`.
`None` models Python `None`; a selected host dict is always non-empty
(hence truthy) and is modelled as `some`. -/
structure BuilderState where
  selected_host : Option HostData
  selected_user : Option UserData
  selected_protocol : Option String
  deriving Repr, DecidableEq

/-- The `CommandBuilder.PROTOCOLS` catalog: name, port, `needs_cred`. -/
def PROTOCOLS : List (String × Nat × Bool) :=
  [("smb", 445, true), ("ldap", 389, true), ("winrm", 5985, true),
   ("ssh", 22, true), ("mssql", 1433, true), ("rdp", 3389, true),
   ("ftp", 21, true), ("wmi", 135, true), ("vnc", 5900, false),
   ("nfs", 2049, false)]

/-- Whether a protocol's catalog entry requires a credential. -/
def needsCred (proto : String) : Option Bool :=
  (PROTOCOLS.find? (fun p => p.1 = proto)).map (fun p => p.2.2)

/-- Python `" ".join(parts)`. -/
def joinSpace : List String → String
  | [] => ""
  | [a] => a
  | a :: rest => a ++ " " ++ joinSpace rest

/-- `CommandBuilder.build_command`: empty string unless both
`selected_host` and `selected_protocol` are truthy (`all([...])`); then
`["nxc", protocol]`, the target ip if truthy, and — only if a credential
was selected — the `-u` flag (`domain\\username` when both truthy, bare
`username` when only it is) and, when the secret is truthy, `-H` for hash
credentials or a quoted `-p` otherwise; joined with spaces. -/
def buildCommand (st : BuilderState) : String :=
  match st.selected_host, st.selected_protocol with
  | some host, some proto =>
    if proto = "" then ""
    else
      let parts := ["nxc", proto]
      let parts := if host.ip = "" then parts else parts ++ [host.ip]
      let parts :=
        match st.selected_user with
        | none => parts
        | some u =>
          let parts :=
            if u.domain ≠ "" ∧ u.username ≠ "" then
              parts ++ ["-u", u.domain ++ "\\" ++ u.username]
            else if u.username ≠ "" then parts ++ ["-u", u.username]
            else parts
          if u.password = "" then parts
          else if u.credtype = "hash" then parts ++ ["-H", u.password]
          else parts ++ ["-p", "\"" ++ u.password ++ "\""]
      joinSpace parts
  | _, _ => ""

/-- C6 counterexample: protocol `smb` has `needs_cred = True` in the
catalog, yet with a host selected and no credential `build_command`
returns `"nxc smb 10.0.0.5"`, not the empty string — the required-credential
half of the claim fails on the code, which never consults `needs_cred`. -/
theorem claim6_needs_cred_not_checked :
    needsCred "smb" = some true ∧
    buildCommand ⟨some ⟨"10.0.0.5"⟩, none, some "smb"⟩ = "nxc smb 10.0.0.5" ∧
    buildCommand ⟨some ⟨"10.0.0.5"⟩, none, some "smb"⟩ ≠ "" := by
  refine ⟨rfl, rfl, by decide⟩

/-- C6 (amended): `build_command` returns the empty string exactly when no
host is chosen or no (truthy) protocol is chosen; when the chosen protocol
requires a credential but none is chosen, it still synthesizes the full
`nxc <protocol> <ip>` command with the credential flags simply omitted. -/
theorem claim6_empty_only_without_host_or_protocol (st : BuilderState) :
    (st.selected_host = none → buildCommand st = "") ∧
    (st.selected_protocol = none → buildCommand st = "") ∧
    (st.selected_protocol = some "" → buildCommand st = "") ∧
    (∀ ip proto, ip ≠ "" → proto ≠ "" → needsCred proto = some true →
      buildCommand ⟨some ⟨ip⟩, none, some proto⟩ = "nxc" ++ " " ++ proto ++ " " ++ ip) := by
  refine ⟨?_, ?_, ?_, ?_⟩
  · intro h
    simp only [buildCommand, h]
  · intro h
    cases hh : st.selected_host <;> simp only [buildCommand, h, hh]
  · intro h
    cases hh : st.selected_host <;> simp [buildCommand, h, hh]
  · intro ip proto hip hproto _
    simp only [buildCommand, if_neg hproto, if_neg hip, joinSpace,
      String.congr_append, List.append_assoc]

/-- C6 amended witness: concrete instantiations of each hypothesis-guarded
conjunct. -/
theorem claim6_empty_only_without_host_or_protocol_witness :
    buildCommand ⟨none, none, some "smb"⟩ = "" ∧
    buildCommand ⟨some ⟨"10.0.0.5"⟩, none, none⟩ = "" ∧
    buildCommand ⟨some ⟨"10.0.0.5"⟩, none, some ""⟩ = "" ∧
    buildCommand ⟨some ⟨"10.0.0.5"⟩, none, some "smb"⟩ = "nxc" ++ " " ++ "smb" ++ " " ++ "10.0.0.5" :=
  ⟨(claim6_empty_only_without_host_or_protocol ⟨none, none, some "smb"⟩).1 rfl,
   (claim6_empty_only_without_host_or_protocol ⟨some ⟨"10.0.0.5"⟩, none, none⟩).2.1 rfl,
   (claim6_empty_only_without_host_or_protocol ⟨some ⟨"10.0.0.5"⟩, none, some ""⟩).2.2.1 rfl,
   (claim6_empty_only_without_host_or_protocol ⟨some ⟨"10.0.0.5"⟩, none, some "smb"⟩).2.2.2
     "10.0.0.5" "smb" (by decide) (by decide) rfl⟩

/-- C7: with a host, a credential (non-empty username and secret) and a
protocol all selected, the synthesized command is
`nxc <protocol> <ip> -u <domain>\\<username>` (bare username when the
domain is empty) followed by `-H <secret>` for hash credentials or
`-p "<secret>"` otherwise; credential flags are omitted entirely when no
credential was selected; and the concrete end-to-end scenario renders
exactly `nxc smb 10.0.0.5 -u CORP\alice -p "hunter2"`. -/
theorem claim7_command_grammar :
    (∀ (ip proto : String) (u : UserData), ip ≠ "" → proto ≠ "" →
      u.username ≠ "" → u.password ≠ "" →
      buildCommand ⟨some ⟨ip⟩, some u, some proto⟩ =
        "nxc" ++ " " ++ proto ++ " " ++ ip ++ " " ++ "-u" ++ " " ++
        (if u.domain ≠ "" then u.domain ++ "\\" ++ u.username else u.username) ++
        (if u.credtype = "hash" then " " ++ "-H" ++ " " ++ u.password
         else " " ++ "-p" ++ " " ++ "\"" ++ u.password ++ "\"")) ∧
    (∀ ip proto, ip ≠ "" → proto ≠ "" →
      buildCommand ⟨some ⟨ip⟩, none, some proto⟩ = "nxc" ++ " " ++ proto ++ " " ++ ip) ∧
    buildCommand ⟨some ⟨"10.0.0.5"⟩,
        some ⟨"CORP", "alice", "hunter2", "plaintext"⟩, some "smb"⟩ =
      "nxc smb 10.0.0.5 -u CORP\\alice -p \"hunter2\"" := by
  refine ⟨?_, ?_, by decide⟩
  · intro ip proto u hip hproto huser hpass
    by_cases hdom : u.domain = "" <;> by_cases hct : u.credtype = "hash" <;>
      simp [buildCommand, hip, hproto, huser, hpass, hdom, hct, joinSpace,
        String.congr_append, List.append_assoc]
  · intro ip proto hip hproto
    simp only [buildCommand, if_neg hproto, if_neg hip, joinSpace,
      String.congr_append, List.append_assoc]

/-- C7 witness: the end-to-end scenario discharges every hypothesis of the
grammar theorem at concrete values. -/
theorem claim7_command_grammar_witness :
    buildCommand ⟨some ⟨"10.0.0.5"⟩,
        some ⟨"CORP", "alice", "hunter2", "plaintext"⟩, some "smb"⟩ =
      "nxc" ++ " " ++ "smb" ++ " " ++ "10.0.0.5" ++ " " ++ "-u" ++ " " ++
        (if ("CORP" : String) ≠ "" then "CORP" ++ "\\" ++ "alice" else "alice") ++
        (if ("plaintext" : String) = "hash" then " " ++ "-H" ++ " " ++ "hunter2"
         else " " ++ "-p" ++ " " ++ "\"" ++ "hunter2" ++ "\"") ∧
    buildCommand ⟨some ⟨"10.0.0.5"⟩, none, some "vnc"⟩ =
      "nxc" ++ " " ++ "vnc" ++ " " ++ "10.0.0.5" :=
  ⟨claim7_command_grammar.1 "10.0.0.5" "smb"
      ⟨"CORP", "alice", "hunter2", "plaintext"⟩
      (by decide) (by decide) (by decide) (by decide),
   claim7_command_grammar.2.1 "10.0.0.5" "vnc" (by decide) (by decide)⟩

/-! ## Responsive layout engine (`components/responsive.py`)

Only the fields of `ResponsiveColumn` that drive column visibility are
modelled (`name`, `key`, `width`, `priority`); style, alignment and the
per-cell formatter affect rendering only. -/

/-- Priority tiers: lower number = higher priority. -/
def PRIORITY_CRITICAL : Nat := 1
def PRIORITY_HIGH : Nat := 2
def PRIORITY_MEDIUM : Nat := 3
def PRIORITY_LOW : Nat := 4

/-- Width breakpoints of `ResponsiveTable`. -/
def WIDTH_NARROW : Nat := 80
def WIDTH_MEDIUM : Nat := 120
def WIDTH_WIDE : Nat := 160

/-- A responsive column declaration. -/
structure RCol where
  name : String
  key : String
  width : Nat
  priority : Nat
  deriving Repr, DecidableEq

/-- Python `c.width or 10`: a falsy (zero) width is estimated as 10. -/
def colWidth (c : RCol) : Nat := if c.width = 0 then 10 else c.width

/-- `sum(c.width or 10 for c in visible) + len(visible)`: total width with
one separator space per column. -/
def totalWidth (cols : List RCol) : Nat :=
  (cols.map colWidth).sum + cols.length

/-- The maximum admitted priority tier for a terminal width: the four
breakpoints of `get_visible_columns`. -/
def maxPriorityFor (terminal_width : Nat) : Nat :=
  if terminal_width < WIDTH_NARROW then PRIORITY_CRITICAL
  else if terminal_width < WIDTH_MEDIUM then PRIORITY_HIGH
  else if terminal_width < WIDTH_WIDE then PRIORITY_MEDIUM
  else PRIORITY_LOW

/-- Stable insertion step for sorting by priority (ties keep the earlier
element first, as Python's stable `sorted`). -/
def insertByPriority (x : RCol) : List RCol → List RCol
  | [] => [x]
  | y :: ys => if y.priority < x.priority then y :: insertByPriority x ys
               else x :: y :: ys

/-- Stable sort by priority, modelling `sorted(visible, key=priority)`. -/
def sortByPriority : List RCol → List RCol
  | [] => []
  | x :: xs => insertByPriority x (sortByPriority xs)

/-- The `while total_width > terminal_width - 6 and len(visible) > 1`
drop loop of `get_visible_columns`: re-sort by priority and drop the last
(lowest-priority) column.  Each iteration removes exactly one column, so
`fuel = length` iterations always suffice; the fuel only makes the
recursion structural. -/
def dropLoopFuel : Nat → Int → List RCol → List RCol
  | 0, _, visible => visible
  | fuel + 1, tw, visible =>
    if (totalWidth visible : Int) > tw - 6 ∧ visible.length > 1 then
      dropLoopFuel fuel tw ((sortByPriority visible).dropLast)
    else visible

/-- `ResponsiveTable.get_visible_columns`: admit columns up to the
breakpoint tier, then drop lowest-priority columns while the summed width
exceeds `terminal_width - 6` and more than one column remains. -/
def getVisibleColumns (cols : List RCol) (terminal_width : Nat) : List RCol :=
  let mp := maxPriorityFor terminal_width
  let visible := cols.filter (fun c => c.priority ≤ mp)
  dropLoopFuel visible.length (terminal_width : Int) visible

/-- The `HOSTS_COLUMNS` declaration list (name, key, width, priority). -/
def HOSTS_COLUMNS : List RCol :=
  [⟨"ID", "id", 4, PRIORITY_HIGH⟩,
   ⟨"IP", "ip", 15, PRIORITY_CRITICAL⟩,
   ⟨"Hostname", "hostname", 15, PRIORITY_CRITICAL⟩,
   ⟨"Domain", "domain", 15, PRIORITY_LOW⟩,
   ⟨"OS", "os", 20, PRIORITY_MEDIUM⟩,
   ⟨"DC", "dc", 3, PRIORITY_HIGH⟩,
   ⟨"Proto", "protocols", 8, PRIORITY_HIGH⟩]

theorem length_insertByPriority (x : RCol) (l : List RCol) :
    (insertByPriority x l).length = l.length + 1 := by
  induction l with
  | nil => rfl
  | cons y ys ih =>
    simp only [insertByPriority]
    split <;> simp [ih]

theorem perm_insertByPriority (x : RCol) (l : List RCol) :
    (insertByPriority x l).Perm (x :: l) := by
  induction l with
  | nil => rfl
  | cons y ys ih =>
    simp only [insertByPriority]
    split
    · exact ((ih.cons y).trans (List.Perm.swap x y ys))
    · rfl

theorem perm_sortByPriority (l : List RCol) : (sortByPriority l).Perm l := by
  induction l with
  | nil => rfl
  | cons x xs ih =>
    exact (perm_insertByPriority x (sortByPriority xs)).trans (ih.cons x)

theorem length_sortByPriority (l : List RCol) :
    (sortByPriority l).length = l.length :=
  (perm_sortByPriority l).length_eq

theorem dropLoopFuel_subset (fuel : Nat) (tw : Int) (v : List RCol) :
    dropLoopFuel fuel tw v ⊆ v := by
  induction fuel generalizing v with
  | zero => exact fun _ h => h
  | succ fuel ih =>
    simp only [dropLoopFuel]
    split
    · intro c hc
      have h1 : c ∈ (sortByPriority v).dropLast := ih _ hc
      exact (perm_sortByPriority v).subset (List.dropLast_subset _ h1)
    · exact fun _ h => h

theorem dropLoopFuel_fits (fuel : Nat) (tw : Int) (v : List RCol)
    (hf : v.length ≤ fuel) :
    (totalWidth (dropLoopFuel fuel tw v) : Int) ≤ tw - 6 ∨
    (dropLoopFuel fuel tw v).length ≤ 1 := by
  induction fuel generalizing v with
  | zero =>
    right
    simp only [dropLoopFuel]
    omega
  | succ fuel ih =>
    simp only [dropLoopFuel]
    split
    · rename_i hcond
      refine ih _ ?_
      have h1 := length_sortByPriority v
      have h2 : ((sortByPriority v).dropLast).length = (sortByPriority v).length - 1 :=
        List.length_dropLast _
      omega
    · rename_i hcond
      push_neg at hcond
      by_cases hw : (totalWidth v : Int) ≤ tw - 6
      · exact Or.inl hw
      · right
        have := hcond (by omega)
        omega

theorem dropLoopFuel_noop (fuel : Nat) (tw : Int) (v : List RCol)
    (hw : (totalWidth v : Int) ≤ tw - 6) :
    dropLoopFuel fuel tw v = v := by
  cases fuel with
  | zero => rfl
  | succ fuel =>
    simp only [dropLoopFuel]
    rw [if_neg]
    intro h
    omega

/-- A declaration list with one column of each of the four tiers, all of
width 5 (summed width 20 + 4 separators = 24 ≤ 144). -/
def FOUR_TIER_COLUMNS : List RCol :=
  [⟨"A", "a", 5, PRIORITY_CRITICAL⟩, ⟨"B", "b", 5, PRIORITY_HIGH⟩,
   ⟨"C", "c", 5, PRIORITY_MEDIUM⟩, ⟨"D", "d", 5, PRIORITY_LOW⟩]

/-- C5 counterexample: at terminal width 150 the breakpoint test
`150 < WIDTH_WIDE` admits only up to the medium tier, so the low-priority
column is invisible even though the summed widths (24) fit easily within
`150 - 6` — the claim's "columns of all four priority tiers at width 150"
fails on the code; the low tier appears only at widths ≥ 160. -/
theorem claim5_low_tier_hidden_at_150 :
    (totalWidth FOUR_TIER_COLUMNS : Int) ≤ 150 - 6 ∧
    (getVisibleColumns FOUR_TIER_COLUMNS 150).map RCol.priority = [1, 2, 3] ∧
    (∀ c ∈ getVisibleColumns FOUR_TIER_COLUMNS 150, c.priority ≠ PRIORITY_LOW) ∧
    (getVisibleColumns FOUR_TIER_COLUMNS 160).map RCol.priority = [1, 2, 3, 4] := by
  refine ⟨by decide, by decide, by decide, by decide⟩

/-- C5 (amended): at width 70 only critical-tier columns can be visible;
at width 150 only tiers up to medium (not low, which needs width ≥ 160);
if the tier-admitted columns' summed widths plus separators fit within
`150 - 6` the admitted set is shown unchanged, and otherwise lowest-priority
columns are dropped one at a time until the sum fits or one column
remains. -/
theorem claim5_tier_visibility (cols : List RCol) :
    (∀ c ∈ getVisibleColumns cols 70, c.priority ≤ PRIORITY_CRITICAL) ∧
    (∀ c ∈ getVisibleColumns cols 150, c.priority ≤ PRIORITY_MEDIUM) ∧
    ((totalWidth (cols.filter (fun c => c.priority ≤ PRIORITY_MEDIUM)) : Int) ≤ 150 - 6 →
      getVisibleColumns cols 150 = cols.filter (fun c => c.priority ≤ PRIORITY_MEDIUM)) ∧
    ((totalWidth (getVisibleColumns cols 150) : Int) ≤ 150 - 6 ∨
      (getVisibleColumns cols 150).length ≤ 1) := by
  have hmp70 : maxPriorityFor 70 = PRIORITY_CRITICAL := rfl
  have hmp150 : maxPriorityFor 150 = PRIORITY_MEDIUM := rfl
  refine ⟨?_, ?_, ?_, ?_⟩
  · intro c hc
    simp only [getVisibleColumns, hmp70] at hc
    have h1 := dropLoopFuel_subset _ _ _ hc
    have h2 := (List.mem_filter.mp h1).2
    simpa using h2
  · intro c hc
    simp only [getVisibleColumns, hmp150] at hc
    have h1 := dropLoopFuel_subset _ _ _ hc
    have h2 := (List.mem_filter.mp h1).2
    simpa using h2
  · intro hfit
    simp only [getVisibleColumns, hmp150]
    exact dropLoopFuel_noop _ _ _ (by simpa using hfit)
  · have h := dropLoopFuel_fits
      (cols.filter (fun c => c.priority ≤ maxPriorityFor 150)).length
      ((150 : Nat) : Int) (cols.filter (fun c => c.priority ≤ maxPriorityFor 150))
      le_rfl
    simp only [getVisibleColumns]
    simpa using h

/-- C5 amended witness: the hosts-page column set at width 150 — the
medium-tier filter fits within 144, so it is displayed unchanged. -/
theorem claim5_tier_visibility_witness :
    (totalWidth (HOSTS_COLUMNS.filter (fun c => c.priority ≤ PRIORITY_MEDIUM)) : Int) ≤ 150 - 6 ∧
    getVisibleColumns HOSTS_COLUMNS 150 =
      HOSTS_COLUMNS.filter (fun c => c.priority ≤ PRIORITY_MEDIUM) :=
  ⟨by decide, (claim5_tier_visibility HOSTS_COLUMNS).2.2.1 (by decide)⟩

/-! ## Source registry and aggregation engine (`db.py`) -/

/-- `DashboardDB._execute_query`: empty list when the protocol has no live
engine; otherwise the rows on success and the empty list when the
underlying execution raises (the blanket `except` converts any failure to
`[]` plus a debug log).  The SQL engine itself is abstracted as `exec`,
mapping the statement and parameters to rows or a raised error. -/
def executeQuery {α : Type} (engines : List String) (protocol : String)
    (exec : String → List String → Except String (List α))
    (query : String) (params : List String) : List α :=
  if protocol ∈ engines then
    match exec query params with
    | .ok rows => rows
    | .error _ => []
  else []

/-- Python `str.strip()`: drop leading and trailing whitespace.  Written
structurally over the character list so that concrete merges evaluate
inside the kernel. -/
def pyStrip (s : String) : String :=
  String.mk
    (((s.data.dropWhile Char.isWhitespace).reverse.dropWhile
        Char.isWhitespace).reverse)

/-- Python `str.upper()`, structurally over the character list. -/
def pyUpper (s : String) : String := String.mk (s.data.map Char.toUpper)

/-- Python `str.lower()`, structurally over the character list. -/
def pyLower (s : String) : String := String.mk (s.data.map Char.toLower)

/-- One raw host row fetched from one protocol store, tagged with its
originating protocol (`_protocol` in the source, before upper-casing).
A column that is absent or NULL is `none` for the flags and `""` for the
string fields — exactly what the source's `host.get(key, default)`
produces for the fields it reads. -/
structure RawHost where
  id : Int
  ip : String
  hostname : String
  domain : String
  os : String
  dc : Option Bool
  signing : Option Bool
  protocol : String
  deriving Repr, DecidableEq

/-- `host["_protocol"][0]`: the first letter of the upper-cased protocol
name. -/
def protoLetter (r : RawHost) : String :=
  String.mk ((pyUpper r.protocol).data.take 1)

/-- A merged host record as built by `get_hosts`. -/
structure MHost where
  id : Int
  ip : String
  hostname : String
  domain : String
  os : String
  protocols : List String
  dc : Option Bool
  signing : Option Bool
  deriving Repr, DecidableEq

/-- The record created for the first row of a group (protocol set still
empty; the letter is added right after creation, on both branches). -/
def newMHost (r : RawHost) : MHost :=
  ⟨r.id, r.ip, r.hostname, r.domain, r.os, [], r.dc, r.signing⟩

/-- `merged[ip]["protocols"].add(letter)`: set insertion, modelled as an
append-if-absent on a duplicate-free list. -/
def addProto (m : MHost) (letter : String) : MHost :=
  { m with protocols :=
      if letter ∈ m.protocols then m.protocols else m.protocols ++ [letter] }

/-- `if host.get("hostname") and not merged[ip]["hostname"]`: overwrite
the stored hostname only when the row's is truthy and the stored one is
not (first non-empty wins). -/
def updateHostname (m : MHost) (r : RawHost) : MHost :=
  if r.hostname ≠ "" ∧ m.hostname = "" then { m with hostname := r.hostname }
  else m

/-- `if host.get("os") and not merged[ip]["os"]`: same rule for the OS
string. -/
def updateOS (m : MHost) (r : RawHost) : MHost :=
  if r.os ≠ "" ∧ m.os = "" then { m with os := r.os } else m

/-- The per-row update of a group's merged record: add the protocol
letter, then apply the two first-non-empty overwrites.  `dc` and `signing`
are never touched here — they are fixed at creation. -/
def updateMHost (m : MHost) (r : RawHost) : MHost :=
  updateOS (updateHostname (addProto m (protoLetter r)) r) r

/-- One iteration of the merge loop of `get_hosts`: skip rows whose IP is
empty or whitespace (`not ip or not ip.strip()`), update the existing
entry for the IP, or append a fresh one (Python dicts preserve insertion
order, so the dict is an association list ordered by first encounter). -/
def hostStep (acc : List MHost) (r : RawHost) : List MHost :=
  if pyStrip r.ip = "" then acc
  else if acc.any (fun m => m.ip = r.ip) then
    acc.map (fun m => if m.ip = r.ip then updateMHost m r else m)
  else acc ++ [updateMHost (newMHost r) r]

/-- The host-merge phase of `get_hosts` over the concatenated raw rows of
all live sources. -/
def mergeHosts (rows : List RawHost) : List MHost := rows.foldl hostStep []

/-- The rows contributing to the merged record of one IP: same IP string
and not discarded by the empty-IP guard. -/
def keptHostGroup (rows : List RawHost) (ip : String) : List RawHost :=
  rows.filter (fun r => r.ip = ip ∧ pyStrip r.ip ≠ "")

/-- Merging one non-empty group in isolation: the first row creates the
record, every row (the first included) then updates it. -/
def groupMergeHost : List RawHost → Option MHost
  | [] => none
  | r :: rest => some (rest.foldl updateMHost (updateMHost (newMHost r) r))

/-- First non-empty string of a list, `""` if none: the value that
"first non-empty wins" accumulation produces. -/
def firstNonEmpty (l : List String) : String :=
  ((l.filter (fun s => s ≠ "")).head?).getD ""

/-- One raw credential row from one protocol's `users` table, tagged with
its originating protocol. -/
structure RawCred where
  id : Int
  domain : String
  username : String
  password : String
  credtype : String
  pillaged_from : Option Int
  protocol : String
  deriving Repr, DecidableEq

/-- The dedup key of `get_credentials`:
`(domain.lower(), username.lower(), credtype.lower())`. -/
def credKey (c : RawCred) : String × String × String :=
  (pyLower c.domain, pyLower c.username, pyLower c.credtype)

/-- A deduplicated credential record. -/
structure DCred where
  id : Int
  domain : String
  username : String
  password : String
  credtype : String
  pillaged_from : Option Int
  reuse_count : Nat
  protocols : List String
  deriving Repr, DecidableEq

/-- The key under which a deduplicated record sits in the dict: its
stored fields come from the first row of its group, so lower-casing them
recovers the group key. -/
def dKey (d : DCred) : String × String × String :=
  (pyLower d.domain, pyLower d.username, pyLower d.credtype)

/-- Record created for the first row of a dedup group: `reuse_count = 1`,
protocol set seeded with the row's upper-cased protocol. -/
def newDCred (c : RawCred) : DCred :=
  ⟨c.id, c.domain, c.username, c.password, c.credtype, c.pillaged_from, 1,
   [pyUpper c.protocol]⟩

/-- Update for every further row of a group: bump `reuse_count`, add the
row's protocol to the set.  All other fields — `pillaged_from` included —
keep the first row's values. -/
def updateDCred (d : DCred) (c : RawCred) : DCred :=
  { d with reuse_count := d.reuse_count + 1,
           protocols :=
             if pyUpper c.protocol ∈ d.protocols then d.protocols
             else d.protocols ++ [pyUpper c.protocol] }

/-- One iteration of the dedup loop of `get_credentials`. -/
def credStep (acc : List DCred) (c : RawCred) : List DCred :=
  if acc.any (fun d => dKey d = credKey c) then
    acc.map (fun d => if dKey d = credKey c then updateDCred d c else d)
  else acc ++ [newDCred c]

/-- The dedup phase of `get_credentials` over the concatenated raw rows of
all live sources. -/
def dedupCreds (rows : List RawCred) : List DCred := rows.foldl credStep []

/-- The rows contributing to one dedup key. -/
def credGroup (rows : List RawCred) (k : String × String × String) :
    List RawCred :=
  rows.filter (fun c => credKey c = k)

/-- Deduplicating one non-empty group in isolation. -/
def groupDedup : List RawCred → Option DCred
  | [] => none
  | c :: rest => some (rest.foldl updateDCred (newDCred c))

/-- Python truthiness of an optional integer column (`None` and `0` are
falsy). -/
def pyTruthyInt : Option Int → Bool
  | none => false
  | some n => n != 0

/-- `c["source"] = "dumped" if c["pillaged_from"] else "used"`. -/
def provenance (d : DCred) : String :=
  if pyTruthyInt d.pillaged_from then "dumped" else "used"

/-- One closeable resource held by the registry (a session or an engine)
together with whether its close call raises. -/
structure CloseSpec where
  name : String
  raises : Bool
  deriving Repr, DecidableEq

/-- A bare Python `for` loop calling `close()` on each resource with no
per-item exception handling: returns the resources actually attempted (in
order) and whether an exception escaped the loop — a raising close ends
the loop at once. -/
def closeSeq : List CloseSpec → List String × Bool
  | [] => ([], false)
  | c :: rest =>
    if c.raises then ([c.name], true)
    else
      let r := closeSeq rest
      (c.name :: r.1, r.2)

/-- `DashboardDB.close`: close every session, then dispose every engine;
an exception escaping the first loop skips the second entirely. -/
def dbClose (sessions engines : List CloseSpec) : List String × Bool :=
  let s := closeSeq sessions
  if s.2 then s
  else
    let e := closeSeq engines
    (s.1 ++ e.1, e.2)

/-- How the `try` block of `DashboardApp.run`'s main loop exits: the
operator quits normally (`handle_input` returns falsy and the loop
breaks; a render error is caught inside the loop and ends in one of the
other ways), a `KeyboardInterrupt` escapes the loop, or some other
exception propagates out of the body. -/
inductive RunOutcome where
  | normalQuit
  | interrupt
  | fatal
  deriving Repr, DecidableEq

/-- The shutdown structure of `DashboardApp.run`:
`try: <loop> except KeyboardInterrupt: pass finally: ... self.db.close() ...`.
Given how the `try` block exits, returns the result of the `db.close()`
call made by the `finally` block on that path, and whether an exception
escapes `run` itself: an interrupt is swallowed by the `except` clause, a
fatal body error resumes propagating after the `finally` block, and an
exception raised inside `db.close()` propagates from the `finally` block
on any path. -/
def appRunExit (outcome : RunOutcome) (sessions engines : List CloseSpec) :
    (List String × Bool) × Bool :=
  match outcome with
  | .normalQuit =>
    let closed := dbClose sessions engines
    (closed, closed.2)
  | .interrupt =>
    let closed := dbClose sessions engines
    (closed, closed.2)
  | .fatal =>
    let closed := dbClose sessions engines
    (closed, true)

/-- `DashboardDB.get_diff_counts`: per category of the freshly computed
counts, subtract the baseline value, defaulting a missing baseline entry
to the current value; then the baseline is overwritten with the current
counts.  Returns the diff and the new baseline. -/
def getDiffCounts (lastCounts : List (String × Int))
    (current : List (String × Int)) :
    List (String × Int) × List (String × Int) :=
  (current.map (fun kv => (kv.1, kv.2 - ((lastCounts.lookup kv.1).getD kv.2))),
   current)

/-- C8: the query primitive always yields a row list: the empty list when
the protocol has no live engine, the empty list when the underlying
execution raises (any failure is caught), and the fetched rows on
success — no exception ever reaches the caller. -/
theorem claim8_query_fail_soft {α : Type} (engines : List String)
    (protocol : String)
    (exec : String → List String → Except String (List α))
    (query : String) (params : List String) :
    (protocol ∉ engines → executeQuery engines protocol exec query params = []) ∧
    (∀ e, exec query params = .error e →
      executeQuery engines protocol exec query params = []) ∧
    (∀ rows, protocol ∈ engines → exec query params = .ok rows →
      executeQuery engines protocol exec query params = rows) := by
  refine ⟨?_, ?_, ?_⟩
  · intro h
    simp [executeQuery, h]
  · intro e he
    by_cases h : protocol ∈ engines <;> simp [executeQuery, he, h]
  · intro rows h hok
    simp [executeQuery, h, hok]

/-- C8 witness: a dead source, a locked database, and a successful fetch
at concrete inputs. -/
theorem claim8_query_fail_soft_witness :
    executeQuery ["smb"] "ldap" (fun _ _ => .ok [(1 : Nat)]) "SELECT 1" [] = [] ∧
    executeQuery ["smb"] "smb"
      (fun _ _ => (.error "database is locked" : Except String (List Nat)))
      "SELECT 1" [] = [] ∧
    executeQuery ["smb"] "smb" (fun _ _ => .ok [(7 : Nat)]) "SELECT 1" [] = [7] :=
  ⟨(claim8_query_fail_soft ["smb"] "ldap" (fun _ _ => .ok [(1 : Nat)])
      "SELECT 1" []).1 (by decide),
   (claim8_query_fail_soft ["smb"] "smb"
      (fun _ _ => (.error "database is locked" : Except String (List Nat)))
      "SELECT 1" []).2.1 "database is locked" rfl,
   (claim8_query_fail_soft ["smb"] "smb" (fun _ _ => .ok [(7 : Nat)])
      "SELECT 1" []).2.2 [7] (by decide) rfl⟩

theorem closeSeq_ok (l : List CloseSpec) (h : ∀ c ∈ l, c.raises = false) :
    closeSeq l = (l.map (fun c => c.name), false) := by
  induction l with
  | nil => rfl
  | cons c rest ih =>
    have hc := h c (List.mem_cons_self c rest)
    simp only [closeSeq, hc, Bool.false_eq_true, if_false, List.map_cons]
    rw [ih (fun x hx => h x (List.mem_cons_of_mem c hx))]

theorem closeSeq_abort (pre : List CloseSpec) (c : CloseSpec)
    (post : List CloseSpec) (hpre : ∀ x ∈ pre, x.raises = false)
    (hc : c.raises = true) :
    closeSeq (pre ++ c :: post) = (pre.map (fun x => x.name) ++ [c.name], true) := by
  induction pre with
  | nil => simp [closeSeq, hc]
  | cons x rest ih =>
    have hx := hpre x (List.mem_cons_self x rest)
    simp only [List.cons_append, closeSeq, hx, Bool.false_eq_true, if_false,
      List.map_cons, List.cons_append, List.append_eq]
    rw [ih (fun y hy => hpre y (List.mem_cons_of_mem x hy))]

/-- C9 counterexample: with two sessions, the first of which raises on
close, the close loop attempts only the first session — the second session
and the engine are never attempted, so a failure while closing one
connection does prevent the close attempt on the remaining connections. -/
theorem claim9_close_aborts_on_failure :
    dbClose [⟨"smb session", true⟩, ⟨"ldap session", false⟩]
        [⟨"smb engine", false⟩] = (["smb session"], true) ∧
    "ldap session" ∉
      (dbClose [⟨"smb session", true⟩, ⟨"ldap session", false⟩]
        [⟨"smb engine", false⟩]).1 := by
  refine ⟨rfl, by decide⟩

/-- C9 (amended): the `finally` block invokes `db.close()` on every exit
path of the run loop — normal quit, interrupt, and fatal error all perform
the same close attempt; when no individual close raises, `close` closes
every session and then every engine in order; but a raising close aborts
the loop, leaving the remaining sessions and all engines unattempted — the
loop has no per-item exception handling. -/
theorem claim9_close_iterates_all_unless_raise :
    (∀ (outcome : RunOutcome) (sessions engines : List CloseSpec),
      (appRunExit outcome sessions engines).1 = dbClose sessions engines) ∧
    (∀ sessions engines : List CloseSpec,
      (∀ c ∈ sessions, c.raises = false) →
      (∀ c ∈ engines, c.raises = false) →
      dbClose sessions engines =
        (sessions.map (fun c => c.name) ++ engines.map (fun c => c.name),
         false)) ∧
    (∀ (pre : List CloseSpec) (c : CloseSpec) (post engines : List CloseSpec),
      (∀ x ∈ pre, x.raises = false) → c.raises = true →
      dbClose (pre ++ c :: post) engines =
        (pre.map (fun x => x.name) ++ [c.name], true)) := by
  refine ⟨?_, ?_, ?_⟩
  · intro outcome sessions engines
    cases outcome <;> rfl
  · intro sessions engines hs he
    simp [dbClose, closeSeq_ok sessions hs, closeSeq_ok engines he]
  · intro pre c post engines hpre hc
    simp [dbClose, closeSeq_abort pre c post hpre hc]

/-- C9 amended witness: concrete instantiations — each of the three exit
paths performs the close attempt; two healthy resources close fully; a
raising first session stops the loop. -/
theorem claim9_close_iterates_all_unless_raise_witness :
    (appRunExit RunOutcome.fatal [⟨"smb session", false⟩]
        [⟨"smb engine", false⟩]).1 =
      dbClose [⟨"smb session", false⟩] [⟨"smb engine", false⟩] ∧
    dbClose [⟨"smb session", false⟩] [⟨"smb engine", false⟩] =
      (["smb session", "smb engine"], false) ∧
    dbClose ([] ++ CloseSpec.mk "smb session" true :: [⟨"ldap session", false⟩])
        [⟨"smb engine", false⟩] = ([] ++ ["smb session"], true) :=
  ⟨claim9_close_iterates_all_unless_raise.1 RunOutcome.fatal
      [⟨"smb session", false⟩] [⟨"smb engine", false⟩],
   claim9_close_iterates_all_unless_raise.2.1 [⟨"smb session", false⟩]
      [⟨"smb engine", false⟩] (by decide) (by decide),
   claim9_close_iterates_all_unless_raise.2.2 [] ⟨"smb session", true⟩
      [⟨"ldap session", false⟩] [⟨"smb engine", false⟩] (by decide) rfl⟩

/-- C10: on the first diff request the baseline is empty, every category's
lookup falls back to the current value, and every delta is 0; the diff
keeps the categories of the current counts, and after any diff request the
new baseline is exactly the counts just computed.  A category missing from
the baseline always yields delta 0. -/
theorem claim10_first_diff_zero :
    (∀ current : List (String × Int),
      ∀ kv ∈ (getDiffCounts [] current).1, kv.2 = 0) ∧
    (∀ lastCounts current : List (String × Int),
      (getDiffCounts lastCounts current).1.map Prod.fst =
        current.map Prod.fst ∧
      (getDiffCounts lastCounts current).2 = current) ∧
    (∀ lastCounts current : List (String × Int), ∀ k v, (k, v) ∈ current →
      lastCounts.lookup k = none →
      (k, (0 : Int)) ∈ (getDiffCounts lastCounts current).1) := by
  refine ⟨?_, ?_, ?_⟩
  · intro current kv hkv
    simp only [getDiffCounts, List.mem_map] at hkv
    obtain ⟨⟨k, v⟩, _, rfl⟩ := hkv
    simp [List.lookup]
  · intro lastCounts current
    refine ⟨?_, rfl⟩
    simp [getDiffCounts, List.map_map, Function.comp]
  · intro lastCounts current k v hmem hnone
    simp only [getDiffCounts, List.mem_map]
    exact ⟨(k, v), hmem, by simp [hnone]⟩

/-- C10 witness: a concrete first refresh — counts `hosts=5, creds=3`
against the empty baseline give zero deltas and install themselves as the
new baseline. -/
theorem claim10_first_diff_zero_witness :
    (∀ kv ∈ (getDiffCounts [] [("hosts", (5 : Int)), ("creds", 3)]).1,
      kv.2 = 0) ∧
    (getDiffCounts [("hosts", (2 : Int))]
        [("hosts", (5 : Int)), ("creds", 3)]).2 =
      [("hosts", 5), ("creds", 3)] ∧
    ("creds", (0 : Int)) ∈
      (getDiffCounts [("hosts", (2 : Int))]
        [("hosts", (5 : Int)), ("creds", 3)]).1 :=
  ⟨claim10_first_diff_zero.1 [("hosts", 5), ("creds", 3)],
   (claim10_first_diff_zero.2.1 [("hosts", 2)]
      [("hosts", 5), ("creds", 3)]).2,
   claim10_first_diff_zero.2.2 [("hosts", 2)] [("hosts", 5), ("creds", 3)]
      "creds" 3 (by decide) (by decide)⟩

/-! ### Host-merge lemmas -/

theorem hostname_updateHostname (m : MHost) (r : RawHost) :
    (updateHostname m r).hostname =
      if m.hostname = "" ∧ r.hostname ≠ "" then r.hostname else m.hostname := by
  simp only [updateHostname]
  split_ifs with h1 h2 <;> first | rfl | tauto

theorem os_updateOS (m : MHost) (r : RawHost) :
    (updateOS m r).os = if m.os = "" ∧ r.os ≠ "" then r.os else m.os := by
  simp only [updateOS]
  split_ifs with h1 h2 <;> first | rfl | tauto

theorem hostname_updateOS (m : MHost) (r : RawHost) :
    (updateOS m r).hostname = m.hostname := by
  simp only [updateOS]
  split <;> rfl

theorem os_updateHostname (m : MHost) (r : RawHost) :
    (updateHostname m r).os = m.os := by
  simp only [updateHostname]
  split <;> rfl

theorem ip_updateMHost (m : MHost) (r : RawHost) : (updateMHost m r).ip = m.ip := by
  simp only [updateMHost, updateOS, updateHostname, addProto]
  split_ifs <;> rfl

theorem dc_updateMHost (m : MHost) (r : RawHost) : (updateMHost m r).dc = m.dc := by
  simp only [updateMHost, updateOS, updateHostname, addProto]
  split_ifs <;> rfl

theorem signing_updateMHost (m : MHost) (r : RawHost) :
    (updateMHost m r).signing = m.signing := by
  simp only [updateMHost, updateOS, updateHostname, addProto]
  split_ifs <;> rfl

theorem hostname_addProto (m : MHost) (l : String) :
    (addProto m l).hostname = m.hostname := rfl

theorem os_addProto (m : MHost) (l : String) : (addProto m l).os = m.os := rfl

theorem hostname_updateMHost (m : MHost) (r : RawHost) :
    (updateMHost m r).hostname =
      if m.hostname = "" ∧ r.hostname ≠ "" then r.hostname else m.hostname := by
  rw [updateMHost, hostname_updateOS, hostname_updateHostname, hostname_addProto]

theorem os_updateMHost (m : MHost) (r : RawHost) :
    (updateMHost m r).os =
      if m.os = "" ∧ r.os ≠ "" then r.os else m.os := by
  rw [updateMHost, os_updateOS, os_updateHostname, os_addProto]

theorem protocols_updateOS (m : MHost) (r : RawHost) :
    (updateOS m r).protocols = m.protocols := by
  simp only [updateOS]
  split <;> rfl

theorem protocols_updateHostname (m : MHost) (r : RawHost) :
    (updateHostname m r).protocols = m.protocols := by
  simp only [updateHostname]
  split <;> rfl

theorem mem_protocols_updateMHost (m : MHost) (r : RawHost) (l : String) :
    l ∈ (updateMHost m r).protocols ↔ l ∈ m.protocols ∨ l = protoLetter r := by
  rw [updateMHost, protocols_updateOS, protocols_updateHostname]
  simp only [addProto]
  split
  · rename_i h
    constructor
    · exact fun hm => Or.inl hm
    · rintro (hm | rfl)
      · exact hm
      · exact h
  · simp [List.mem_append]

theorem ip_foldl_updateMHost (g : List RawHost) (m : MHost) :
    (g.foldl updateMHost m).ip = m.ip := by
  induction g generalizing m with
  | nil => rfl
  | cons r rest ih => simp [List.foldl_cons, ih, ip_updateMHost]

theorem dc_foldl_updateMHost (g : List RawHost) (m : MHost) :
    (g.foldl updateMHost m).dc = m.dc := by
  induction g generalizing m with
  | nil => rfl
  | cons r rest ih => simp [List.foldl_cons, ih, dc_updateMHost]

theorem signing_foldl_updateMHost (g : List RawHost) (m : MHost) :
    (g.foldl updateMHost m).signing = m.signing := by
  induction g generalizing m with
  | nil => rfl
  | cons r rest ih => simp [List.foldl_cons, ih, signing_updateMHost]

theorem mem_protocols_foldl_updateMHost (g : List RawHost) (m : MHost)
    (l : String) :
    l ∈ (g.foldl updateMHost m).protocols ↔
      l ∈ m.protocols ∨ ∃ r ∈ g, protoLetter r = l := by
  induction g generalizing m with
  | nil => simp
  | cons r rest ih =>
    rw [List.foldl_cons, ih, mem_protocols_updateMHost]
    constructor
    · rintro ((hm | rfl) | ⟨r', hr', rfl⟩)
      · exact Or.inl hm
      · exact Or.inr ⟨r, List.mem_cons_self r rest, rfl⟩
      · exact Or.inr ⟨r', List.mem_cons_of_mem r hr', rfl⟩
    · rintro (hm | ⟨r', hr', rfl⟩)
      · exact Or.inl (Or.inl hm)
      · rcases List.mem_cons.mp hr' with rfl | hr'
        · exact Or.inl (Or.inr rfl)
        · exact Or.inr ⟨r', hr', rfl⟩

theorem firstNonEmpty_cons (s : String) (l : List String) :
    firstNonEmpty (s :: l) = if s = "" then firstNonEmpty l else s := by
  by_cases h : s = "" <;> simp [firstNonEmpty, h]

theorem hostname_foldl_updateMHost (g : List RawHost) (m : MHost) :
    (g.foldl updateMHost m).hostname =
      if m.hostname = "" then firstNonEmpty (g.map (fun r => r.hostname))
      else m.hostname := by
  induction g generalizing m with
  | nil =>
    split
    · rename_i h
      simp [firstNonEmpty, h]
    · rfl
  | cons r rest ih =>
    rw [List.foldl_cons, ih, hostname_updateMHost, List.map_cons,
      firstNonEmpty_cons]
    by_cases hm : m.hostname = "" <;> by_cases hr : r.hostname = "" <;>
      simp [hm, hr]

theorem os_foldl_updateMHost (g : List RawHost) (m : MHost) :
    (g.foldl updateMHost m).os =
      if m.os = "" then firstNonEmpty (g.map (fun r => r.os))
      else m.os := by
  induction g generalizing m with
  | nil =>
    split
    · rename_i h
      simp [firstNonEmpty, h]
    · rfl
  | cons r rest ih =>
    rw [List.foldl_cons, ih, os_updateMHost, List.map_cons, firstNonEmpty_cons]
    by_cases hm : m.os = "" <;> by_cases hr : r.os = "" <;> simp [hm, hr]

theorem find?_map_updateMHost (acc : List MHost) (r : RawHost) (ip : String) :
    (acc.map (fun m => if m.ip = r.ip then updateMHost m r else m)).find?
        (fun m => m.ip = ip) =
      (acc.find? (fun m => m.ip = ip)).map
        (fun m => if m.ip = r.ip then updateMHost m r else m) := by
  rw [List.find?_map]
  have hp : ((fun m : MHost => decide (m.ip = ip)) ∘
      (fun m => if m.ip = r.ip then updateMHost m r else m)) =
      (fun m : MHost => decide (m.ip = ip)) := by
    funext m
    by_cases h : m.ip = r.ip <;> simp [Function.comp, h, ip_updateMHost]
  rw [hp]

/-- The central invariant of the merge loop: the entry found for a given
IP after folding the remaining rows over any accumulator is the group fold
of that IP's kept rows, continued from the accumulator's entry (or started
fresh when the accumulator has none). -/
theorem find?_foldl_hostStep (rows : List RawHost) (acc : List MHost)
    (ip : String) :
    (rows.foldl hostStep acc).find? (fun m => m.ip = ip) =
      match acc.find? (fun m => m.ip = ip) with
      | some m => some ((keptHostGroup rows ip).foldl updateMHost m)
      | none => groupMergeHost (keptHostGroup rows ip) := by
  induction rows generalizing acc with
  | nil =>
    cases h : acc.find? (fun m => m.ip = ip) <;>
      simp [keptHostGroup, groupMergeHost, h]
  | cons r rest ih =>
    rw [List.foldl_cons, ih]
    by_cases hskip : pyStrip r.ip = ""
    · have hstep : hostStep acc r = acc := by simp [hostStep, hskip]
      have hgrp : keptHostGroup (r :: rest) ip = keptHostGroup rest ip := by
        simp [keptHostGroup, hskip]
      rw [hstep, hgrp]
    · by_cases hip : r.ip = ip
      · subst hip
        have hgrp : keptHostGroup (r :: rest) r.ip = r :: keptHostGroup rest r.ip := by
          simp [keptHostGroup, List.filter_cons, hskip]
        rw [hgrp]
        by_cases hany : acc.any (fun m => m.ip = r.ip)
        · have hsome : ∃ m, acc.find? (fun m => m.ip = r.ip) = some m := by
            rw [← Option.isSome_iff_exists, List.find?_isSome]
            simp only [List.any_eq_true, decide_eq_true_eq] at hany
            obtain ⟨x, hx, hxip⟩ := hany
            exact ⟨x, hx, by simp [hxip]⟩
          obtain ⟨m, hm⟩ := hsome
          have hmip : m.ip = r.ip := by simpa using List.find?_some hm
          have hstep : hostStep acc r =
              acc.map (fun m => if m.ip = r.ip then updateMHost m r else m) := by
            simp [hostStep, hskip, hany]
          rw [hstep, find?_map_updateMHost, hm]
          simp [hmip, List.foldl_cons]
        · have hnone : acc.find? (fun m => m.ip = r.ip) = none := by
            rw [List.find?_eq_none]
            intro x hx
            simp only [List.any_eq_true, decide_eq_true_eq, not_exists] at hany
            simp only [decide_eq_true_eq]
            intro hcontra
            exact hany x ⟨hx, hcontra⟩
          have hstep : hostStep acc r = acc ++ [updateMHost (newMHost r) r] := by
            simp [hostStep, hskip, hany]
          have hnew : (updateMHost (newMHost r) r).ip = r.ip := by
            rw [ip_updateMHost]
            rfl
          rw [hstep, List.find?_append, hnone, Option.none_or,
            List.find?_cons_of_pos _ (by simpa using hnew)]
          simp [groupMergeHost, List.foldl_cons]
      · have hgrp : keptHostGroup (r :: rest) ip = keptHostGroup rest ip := by
          simp [keptHostGroup, hip]
        have hfind : (hostStep acc r).find? (fun m => m.ip = ip) =
            acc.find? (fun m => m.ip = ip) := by
          by_cases hany : acc.any (fun m => m.ip = r.ip)
          · have hstep : hostStep acc r =
                acc.map (fun m => if m.ip = r.ip then updateMHost m r else m) := by
              simp [hostStep, hskip, hany]
            rw [hstep, find?_map_updateMHost]
            cases hm : acc.find? (fun m => m.ip = ip) with
            | none => rfl
            | some m =>
              have hmip : m.ip = ip := by simpa using List.find?_some hm
              have : ¬(m.ip = r.ip) := by
                rw [hmip]; exact fun h => hip h.symm
              simp [this]
          · have hstep : hostStep acc r = acc ++ [updateMHost (newMHost r) r] := by
              simp [hostStep, hskip, hany]
            have hnewip : ¬((updateMHost (newMHost r) r).ip = ip) := by
              rw [ip_updateMHost]; exact hip
            rw [hstep, List.find?_append,
              List.find?_cons_of_neg _ (by simpa using hnewip)]
            simp [Option.or_none]
        rw [hgrp, hfind]

theorem nodup_foldl_hostStep (rows : List RawHost) (acc : List MHost)
    (h : (acc.map (fun m => m.ip)).Nodup) :
    ((rows.foldl hostStep acc).map (fun m => m.ip)).Nodup := by
  induction rows generalizing acc with
  | nil => exact h
  | cons r rest ih =>
    rw [List.foldl_cons]
    apply ih
    by_cases hskip : pyStrip r.ip = ""
    · simpa [hostStep, hskip] using h
    · by_cases hany : acc.any (fun m => m.ip = r.ip)
      · have hstep : hostStep acc r =
            acc.map (fun m => if m.ip = r.ip then updateMHost m r else m) := by
          simp [hostStep, hskip, hany]
        rw [hstep, List.map_map]
        have hcomp : ((fun m : MHost => m.ip) ∘
            fun m => if m.ip = r.ip then updateMHost m r else m) =
            fun m : MHost => m.ip := by
          funext m
          by_cases hm : m.ip = r.ip <;> simp [Function.comp, hm, ip_updateMHost]
        rw [hcomp]
        exact h
      · have hstep : hostStep acc r = acc ++ [updateMHost (newMHost r) r] := by
          simp [hostStep, hskip, hany]
        rw [hstep, List.map_append, List.nodup_append]
        refine ⟨h, by simp, ?_⟩
        intro x hx
        simp only [List.mem_map] at hx
        obtain ⟨m, hmacc, rfl⟩ := hx
        simp only [List.map_cons, List.map_nil, List.mem_singleton,
          ip_updateMHost]
        simp only [List.any_eq_true, decide_eq_true_eq, not_exists] at hany
        intro hcontra
        have : (newMHost r).ip = r.ip := rfl
        exact hany m ⟨hmacc, by rw [hcontra, this]⟩

theorem nodup_mergeHosts (rows : List RawHost) :
    ((mergeHosts rows).map (fun m => m.ip)).Nodup :=
  nodup_foldl_hostStep rows [] (by simp)

theorem find?_mergeHosts (rows : List RawHost) (ip : String) :
    (mergeHosts rows).find? (fun m => m.ip = ip) =
      groupMergeHost (keptHostGroup rows ip) := by
  have h := find?_foldl_hostStep rows [] ip
  simpa [mergeHosts] using h

theorem find?_eq_some_of_mem_nodup (l : List MHost) (m : MHost)
    (hnd : (l.map (fun x => x.ip)).Nodup) (hm : m ∈ l) :
    l.find? (fun x => x.ip = m.ip) = some m := by
  induction l with
  | nil => cases hm
  | cons a l ih =>
    rw [List.map_cons, List.nodup_cons] at hnd
    rcases List.mem_cons.mp hm with rfl | hm'
    · exact List.find?_cons_of_pos _ (by simp)
    · have ha : ¬(a.ip = m.ip) := by
        intro hcontra
        exact hnd.1 (hcontra ▸ List.mem_map.mpr ⟨m, hm', rfl⟩)
      rw [List.find?_cons_of_neg _ (by simpa using ha)]
      exact ih hnd.2 hm'

theorem hostname_groupSeed (r : RawHost) :
    (updateMHost (newMHost r) r).hostname = r.hostname := by
  rw [hostname_updateMHost]
  split <;> rfl

theorem os_groupSeed (r : RawHost) :
    (updateMHost (newMHost r) r).os = r.os := by
  rw [os_updateMHost]
  split <;> rfl

theorem mem_protocols_groupSeed (r : RawHost) (l : String) :
    l ∈ (updateMHost (newMHost r) r).protocols ↔ l = protoLetter r := by
  rw [mem_protocols_updateMHost]
  simp [newMHost]

/-- An SSH host row carrying no dc/signing columns and no hostname. -/
def rowSSH : RawHost := ⟨1, "10.0.0.1", "", "", "", none, none, "ssh"⟩

/-- An SMB host row for the same IP that does carry `dc = True` and
`signing = False`. -/
def rowSMB : RawHost :=
  ⟨2, "10.0.0.1", "WS01", "CORP", "Windows 10", some true, some false, "smb"⟩

/-- C2 counterexample: two rows share one IP; only the second (SMB) row
carries the dc and signing flags, yet the merged record keeps the first
(SSH) row's absent flags — dc/signing are fixed when the group's first row
creates the entry and are never updated, so they are *not* taken from
whichever row carries them. -/
theorem claim2_flags_from_first_row_only :
    (mergeHosts [rowSSH, rowSMB]).length = 1 ∧
    rowSMB.dc = some true ∧ rowSMB.signing = some false ∧
    ∀ m ∈ mergeHosts [rowSSH, rowSMB], m.dc = none ∧ m.signing = none := by
  refine ⟨rfl, rfl, rfl, by decide⟩

/-- C2 (amended): rows with an empty or whitespace IP are discarded; the
rest are grouped by IP with exactly one merged record per distinct IP (the
IP list of the output has no duplicates, and every kept IP is
represented); each record's protocol set is exactly the union of its
group's first-letter codes, hostname and OS are the first non-empty value
among the group's rows, and dc and signing are those of the group's
*first* row (absent values included) — not of whichever row carries
them. -/
theorem claim2_host_merge (rows : List RawHost) :
    ((mergeHosts rows).map (fun m => m.ip)).Nodup ∧
    (∀ ip, pyStrip ip ≠ "" → (∃ r ∈ rows, r.ip = ip) →
      ∃ m ∈ mergeHosts rows, m.ip = ip) ∧
    (∀ m ∈ mergeHosts rows, ∃ r0 rest,
      keptHostGroup rows m.ip = r0 :: rest ∧
      pyStrip m.ip ≠ "" ∧
      m.dc = r0.dc ∧ m.signing = r0.signing ∧
      m.hostname =
        firstNonEmpty ((keptHostGroup rows m.ip).map (fun r => r.hostname)) ∧
      m.os = firstNonEmpty ((keptHostGroup rows m.ip).map (fun r => r.os)) ∧
      (∀ l, l ∈ m.protocols ↔
        ∃ r ∈ rows, r.ip = m.ip ∧ protoLetter r = l)) := by
  refine ⟨nodup_mergeHosts rows, ?_, ?_⟩
  · rintro ip htrim ⟨r, hr, hrip⟩
    have hmem : r ∈ keptHostGroup rows ip := by
      simp only [keptHostGroup, List.mem_filter]
      refine ⟨hr, ?_⟩
      simp [hrip, htrim]
    cases hk : keptHostGroup rows ip with
    | nil => rw [hk] at hmem; cases hmem
    | cons r0 rest =>
      have hfind : (mergeHosts rows).find? (fun m => m.ip = ip) =
          some (rest.foldl updateMHost (updateMHost (newMHost r0) r0)) := by
        rw [find?_mergeHosts, hk]
        rfl
      refine ⟨_, List.mem_of_find?_eq_some hfind, ?_⟩
      simpa using List.find?_some hfind
  · intro m hm
    have hfind : (mergeHosts rows).find? (fun x => x.ip = m.ip) = some m :=
      find?_eq_some_of_mem_nodup _ m (nodup_mergeHosts rows) hm
    rw [find?_mergeHosts] at hfind
    cases hk : keptHostGroup rows m.ip with
    | nil =>
      rw [hk] at hfind
      simp [groupMergeHost] at hfind
    | cons r0 rest =>
      rw [hk] at hfind
      simp only [groupMergeHost, Option.some.injEq] at hfind
      have hr0mem : r0 ∈ keptHostGroup rows m.ip := by
        rw [hk]
        exact List.mem_cons_self r0 rest
      have hr0spec := (List.mem_filter.mp hr0mem)
      have hr0rows : r0 ∈ rows := hr0spec.1
      have hr0cond : r0.ip = m.ip ∧ pyStrip r0.ip ≠ "" := by
        simpa using hr0spec.2
      have htrim : pyStrip m.ip ≠ "" := hr0cond.1 ▸ hr0cond.2
      obtain ⟨hip0, -⟩ := hr0cond
      subst hfind
      refine ⟨r0, rest, rfl, htrim, ?_, ?_, ?_, ?_, ?_⟩
      · rw [dc_foldl_updateMHost, dc_updateMHost]
        rfl
      · rw [signing_foldl_updateMHost, signing_updateMHost]
        rfl
      · rw [List.map_cons, firstNonEmpty_cons,
          hostname_foldl_updateMHost, hostname_groupSeed]
      · rw [List.map_cons, firstNonEmpty_cons,
          os_foldl_updateMHost, os_groupSeed]
      · intro l
        rw [mem_protocols_foldl_updateMHost, mem_protocols_groupSeed]
        constructor
        · rintro (rfl | ⟨r, hrrest, rfl⟩)
          · exact ⟨r0, hr0rows, hip0, rfl⟩
          · have hrk : r ∈ keptHostGroup rows
                (rest.foldl updateMHost (updateMHost (newMHost r0) r0)).ip := by
              rw [hk]
              exact List.mem_cons_of_mem r0 hrrest
            have hrspec := List.mem_filter.mp hrk
            have hrcond : r.ip =
                (rest.foldl updateMHost (updateMHost (newMHost r0) r0)).ip ∧
                pyStrip r.ip ≠ "" := by
              simpa using hrspec.2
            exact ⟨r, hrspec.1, hrcond.1, rfl⟩
        · rintro ⟨r, hrrows, hrip, rfl⟩
          have hrk : r ∈ keptHostGroup rows
              (rest.foldl updateMHost (updateMHost (newMHost r0) r0)).ip := by
            simp only [keptHostGroup, List.mem_filter]
            refine ⟨hrrows, ?_⟩
            simp [hrip, htrim]
          rw [hk] at hrk
          rcases List.mem_cons.mp hrk with rfl | hrrest
          · exact Or.inl rfl
          · exact Or.inr ⟨r, hrrest, rfl⟩

/-- C2 amended witness: both hypothesis-guarded conjuncts at concrete
rows — the shared IP of the two sample rows is represented by a merged
record, and the output IPs are duplicate-free. -/
theorem claim2_host_merge_witness :
    (∃ m ∈ mergeHosts [rowSSH, rowSMB], m.ip = "10.0.0.1") ∧
    ((mergeHosts [rowSSH, rowSMB]).map (fun m => m.ip)).Nodup :=
  ⟨(claim2_host_merge [rowSSH, rowSMB]).2.1 "10.0.0.1" (by decide)
      ⟨rowSSH, by simp, rfl⟩,
   (claim2_host_merge [rowSSH, rowSMB]).1⟩

/-! ### Credential-dedup lemmas -/

theorem dKey_updateDCred (d : DCred) (c : RawCred) :
    dKey (updateDCred d c) = dKey d := rfl

theorem dKey_newDCred (c : RawCred) : dKey (newDCred c) = credKey c := rfl

theorem pillaged_updateDCred (d : DCred) (c : RawCred) :
    (updateDCred d c).pillaged_from = d.pillaged_from := rfl

theorem reuse_foldl_updateDCred (g : List RawCred) (d : DCred) :
    (g.foldl updateDCred d).reuse_count = d.reuse_count + g.length := by
  induction g generalizing d with
  | nil => rfl
  | cons c rest ih =>
    rw [List.foldl_cons, ih]
    simp only [updateDCred, List.length_cons]
    omega

theorem pillaged_foldl_updateDCred (g : List RawCred) (d : DCred) :
    (g.foldl updateDCred d).pillaged_from = d.pillaged_from := by
  induction g generalizing d with
  | nil => rfl
  | cons c rest ih => rw [List.foldl_cons, ih, pillaged_updateDCred]

theorem mem_protocols_updateDCred (d : DCred) (c : RawCred) (p : String) :
    p ∈ (updateDCred d c).protocols ↔
      p ∈ d.protocols ∨ p = pyUpper c.protocol := by
  simp only [updateDCred]
  split
  · rename_i h
    constructor
    · exact fun hm => Or.inl hm
    · rintro (hm | rfl)
      · exact hm
      · exact h
  · simp [List.mem_append]

theorem mem_protocols_foldl_updateDCred (g : List RawCred) (d : DCred)
    (p : String) :
    p ∈ (g.foldl updateDCred d).protocols ↔
      p ∈ d.protocols ∨ ∃ c ∈ g, pyUpper c.protocol = p := by
  induction g generalizing d with
  | nil => simp
  | cons c rest ih =>
    rw [List.foldl_cons, ih, mem_protocols_updateDCred]
    constructor
    · rintro ((hm | rfl) | ⟨c', hc', rfl⟩)
      · exact Or.inl hm
      · exact Or.inr ⟨c, List.mem_cons_self c rest, rfl⟩
      · exact Or.inr ⟨c', List.mem_cons_of_mem c hc', rfl⟩
    · rintro (hm | ⟨c', hc', rfl⟩)
      · exact Or.inl (Or.inl hm)
      · rcases List.mem_cons.mp hc' with rfl | hc'
        · exact Or.inl (Or.inr rfl)
        · exact Or.inr ⟨c', hc', rfl⟩

theorem mem_protocols_newDCred (c : RawCred) (p : String) :
    p ∈ (newDCred c).protocols ↔ p = pyUpper c.protocol := by
  simp [newDCred]

theorem find?_map_updateDCred (acc : List DCred) (c : RawCred)
    (k : String × String × String) :
    (acc.map (fun d => if dKey d = credKey c then updateDCred d c else d)).find?
        (fun d => dKey d = k) =
      (acc.find? (fun d => dKey d = k)).map
        (fun d => if dKey d = credKey c then updateDCred d c else d) := by
  rw [List.find?_map]
  have hp : ((fun d : DCred => decide (dKey d = k)) ∘
      (fun d => if dKey d = credKey c then updateDCred d c else d)) =
      (fun d : DCred => decide (dKey d = k)) := by
    funext d
    by_cases h : dKey d = credKey c <;> simp [Function.comp, h, dKey_updateDCred]
  rw [hp]

/-- The central invariant of the dedup loop, mirroring
`find?_foldl_hostStep`. -/
theorem find?_foldl_credStep (rows : List RawCred) (acc : List DCred)
    (k : String × String × String) :
    (rows.foldl credStep acc).find? (fun d => dKey d = k) =
      match acc.find? (fun d => dKey d = k) with
      | some d => some ((credGroup rows k).foldl updateDCred d)
      | none => groupDedup (credGroup rows k) := by
  induction rows generalizing acc with
  | nil =>
    cases h : acc.find? (fun d => dKey d = k) <;>
      simp [credGroup, groupDedup, h]
  | cons c rest ih =>
    rw [List.foldl_cons, ih]
    by_cases hck : credKey c = k
    · subst hck
      have hgrp : credGroup (c :: rest) (credKey c) =
          c :: credGroup rest (credKey c) := by
        simp [credGroup, List.filter_cons]
      rw [hgrp]
      by_cases hany : acc.any (fun d => dKey d = credKey c)
      · have hsome : ∃ d, acc.find? (fun d => dKey d = credKey c) = some d := by
          rw [← Option.isSome_iff_exists, List.find?_isSome]
          simp only [List.any_eq_true, decide_eq_true_eq] at hany
          obtain ⟨x, hx, hxk⟩ := hany
          exact ⟨x, hx, by simp [hxk]⟩
        obtain ⟨d, hd⟩ := hsome
        have hdk : dKey d = credKey c := by simpa using List.find?_some hd
        have hstep : credStep acc c =
            acc.map (fun d => if dKey d = credKey c then updateDCred d c else d) := by
          simp [credStep, hany]
        rw [hstep, find?_map_updateDCred, hd]
        simp [hdk, List.foldl_cons]
      · have hnone : acc.find? (fun d => dKey d = credKey c) = none := by
          rw [List.find?_eq_none]
          intro x hx
          simp only [List.any_eq_true, decide_eq_true_eq, not_exists] at hany
          simp only [decide_eq_true_eq]
          intro hcontra
          exact hany x ⟨hx, hcontra⟩
        have hstep : credStep acc c = acc ++ [newDCred c] := by
          simp [credStep, hany]
        have hnew : dKey (newDCred c) = credKey c := rfl
        rw [hstep, List.find?_append, hnone, Option.none_or,
          List.find?_cons_of_pos _ (by simpa using hnew)]
        simp [groupDedup, List.foldl_cons]
    · have hgrp : credGroup (c :: rest) k = credGroup rest k := by
        simp [credGroup, List.filter_cons, hck]
      have hfind : (credStep acc c).find? (fun d => dKey d = k) =
          acc.find? (fun d => dKey d = k) := by
        by_cases hany : acc.any (fun d => dKey d = credKey c)
        · have hstep : credStep acc c =
              acc.map (fun d => if dKey d = credKey c then updateDCred d c else d) := by
            simp [credStep, hany]
          rw [hstep, find?_map_updateDCred]
          cases hd : acc.find? (fun d => dKey d = k) with
          | none => rfl
          | some d =>
            have hdk : dKey d = k := by simpa using List.find?_some hd
            have hne : ¬(dKey d = credKey c) := by
              rw [hdk]
              exact fun h => hck h.symm
            simp [hne]
        · have hstep : credStep acc c = acc ++ [newDCred c] := by
            simp [credStep, hany]
          have hnk : ¬(dKey (newDCred c) = k) := fun h => hck h
          rw [hstep, List.find?_append,
            List.find?_cons_of_neg _ (by simpa using hnk)]
          simp [Option.or_none]
      rw [hgrp, hfind]

theorem nodup_foldl_credStep (rows : List RawCred) (acc : List DCred)
    (h : (acc.map dKey).Nodup) :
    ((rows.foldl credStep acc).map dKey).Nodup := by
  induction rows generalizing acc with
  | nil => exact h
  | cons c rest ih =>
    rw [List.foldl_cons]
    apply ih
    by_cases hany : acc.any (fun d => dKey d = credKey c)
    · have hstep : credStep acc c =
          acc.map (fun d => if dKey d = credKey c then updateDCred d c else d) := by
        simp [credStep, hany]
      rw [hstep, List.map_map]
      have hcomp : (dKey ∘
          fun d => if dKey d = credKey c then updateDCred d c else d) = dKey := by
        funext d
        by_cases hd : dKey d = credKey c <;>
          simp [Function.comp, hd, dKey_updateDCred]
      rw [hcomp]
      exact h
    · have hstep : credStep acc c = acc ++ [newDCred c] := by
        simp [credStep, hany]
      rw [hstep, List.map_append, List.nodup_append]
      refine ⟨h, by simp, ?_⟩
      intro x hx
      simp only [List.mem_map] at hx
      obtain ⟨d, hdacc, rfl⟩ := hx
      simp only [List.map_cons, List.map_nil, List.mem_singleton, dKey_newDCred]
      simp only [List.any_eq_true, decide_eq_true_eq, not_exists] at hany
      exact fun hcontra => hany d ⟨hdacc, hcontra⟩

theorem nodup_dedupCreds (rows : List RawCred) :
    ((dedupCreds rows).map dKey).Nodup :=
  nodup_foldl_credStep rows [] (by simp)

theorem find?_dedupCreds (rows : List RawCred) (k : String × String × String) :
    (dedupCreds rows).find? (fun d => dKey d = k) =
      groupDedup (credGroup rows k) := by
  have h := find?_foldl_credStep rows [] k
  simpa [dedupCreds] using h

theorem find?_eq_some_of_mem_nodup_dkey (l : List DCred) (d : DCred)
    (hnd : (l.map dKey).Nodup) (hd : d ∈ l) :
    l.find? (fun x => dKey x = dKey d) = some d := by
  induction l with
  | nil => cases hd
  | cons a l ih =>
    rw [List.map_cons, List.nodup_cons] at hnd
    rcases List.mem_cons.mp hd with rfl | hd'
    · exact List.find?_cons_of_pos _ (by simp)
    · have ha : ¬(dKey a = dKey d) := by
        intro hcontra
        exact hnd.1 (hcontra ▸ List.mem_map.mpr ⟨d, hd', rfl⟩)
      rw [List.find?_cons_of_neg _ (by simpa using ha)]
      exact ih hnd.2 hd'

/-- A credential row first seen via SMB, with no pillage-origin
reference. -/
def credUsed : RawCred := ⟨1, "CORP", "alice", "hunter2", "plaintext", none, "smb"⟩

/-- The same logical credential seen via LDAP, differing only in letter
case, carrying a pillage-origin reference (`pillaged_from_hostid = 5`). -/
def credDumped : RawCred :=
  ⟨2, "corp", "ALICE", "hunter2", "plaintext", some 5, "ldap"⟩

/-- C3: deduplicated keys are pairwise distinct; two rows whose
domain/username/credtype agree case-insensitively collapse into exactly
one record with `reuse_count = 2` and the union of both protocols; and in
general every record's `reuse_count` equals the size of its
case-insensitive group and its protocol set is exactly the union of the
group's (upper-cased) protocols. -/
theorem claim3_cred_dedup (rows : List RawCred) :
    ((dedupCreds rows).map dKey).Nodup ∧
    (∀ c1 c2 : RawCred, credKey c1 = credKey c2 →
      (dedupCreds [c1, c2]).length = 1 ∧
      ∀ d ∈ dedupCreds [c1, c2], d.reuse_count = 2 ∧
        (∀ p, p ∈ d.protocols ↔
          p = pyUpper c1.protocol ∨ p = pyUpper c2.protocol)) ∧
    (∀ d ∈ dedupCreds rows,
      d.reuse_count = (credGroup rows (dKey d)).length ∧
      (∀ p, p ∈ d.protocols ↔
        ∃ c ∈ rows, credKey c = dKey d ∧ pyUpper c.protocol = p)) := by
  have main : ∀ (rowsx : List RawCred), ∀ d ∈ dedupCreds rowsx,
      d.reuse_count = (credGroup rowsx (dKey d)).length ∧
      (∀ p, p ∈ d.protocols ↔
        ∃ c ∈ rowsx, credKey c = dKey d ∧ pyUpper c.protocol = p) := by
    intro rowsx d hd
    have hfind : (dedupCreds rowsx).find? (fun x => dKey x = dKey d) = some d :=
      find?_eq_some_of_mem_nodup_dkey _ d (nodup_dedupCreds rowsx) hd
    rw [find?_dedupCreds] at hfind
    cases hk : credGroup rowsx (dKey d) with
    | nil =>
      rw [hk] at hfind
      simp [groupDedup] at hfind
    | cons c0 rest =>
      rw [hk] at hfind
      simp only [groupDedup, Option.some.injEq] at hfind
      have hc0mem : c0 ∈ credGroup rowsx (dKey d) := by
        rw [hk]
        exact List.mem_cons_self c0 rest
      have hc0spec := List.mem_filter.mp hc0mem
      have hc0key : credKey c0 = dKey d := by simpa using hc0spec.2
      subst hfind
      constructor
      · rw [reuse_foldl_updateDCred]
        simp only [newDCred, List.length_cons]
        omega
      · intro p
        rw [mem_protocols_foldl_updateDCred, mem_protocols_newDCred]
        constructor
        · rintro (rfl | ⟨c, hcrest, rfl⟩)
          · exact ⟨c0, hc0spec.1, hc0key, rfl⟩
          · have hck : c ∈ credGroup rowsx
                (dKey (rest.foldl updateDCred (newDCred c0))) := by
              rw [hk]
              exact List.mem_cons_of_mem c0 hcrest
            have hcspec := List.mem_filter.mp hck
            exact ⟨c, hcspec.1, by simpa using hcspec.2, rfl⟩
        · rintro ⟨c, hcrows, hckey, rfl⟩
          have hck : c ∈ credGroup rowsx
              (dKey (rest.foldl updateDCred (newDCred c0))) := by
            simp only [credGroup, List.mem_filter]
            exact ⟨hcrows, by simp [hckey]⟩
          rw [hk] at hck
          rcases List.mem_cons.mp hck with rfl | hcrest
          · exact Or.inl rfl
          · exact Or.inr ⟨c, hcrest, rfl⟩
  refine ⟨nodup_dedupCreds rows, ?_, main rows⟩
  intro c1 c2 hkey
  have h12 : dedupCreds [c1, c2] = [updateDCred (newDCred c1) c2] := by
    have hcond : dKey (newDCred c1) = credKey c2 := by
      rw [dKey_newDCred]
      exact hkey
    simp [dedupCreds, credStep, hcond]
  refine ⟨by rw [h12]; rfl, ?_⟩
  intro d hd
  rw [h12] at hd
  rcases List.mem_singleton.mp hd with rfl
  constructor
  · rfl
  · intro p
    rw [mem_protocols_updateDCred, mem_protocols_newDCred]

/-- C3 witness: the concrete case-differing pair collapses to one record
whose reuse count equals its group size. -/
theorem claim3_cred_dedup_witness :
    (dedupCreds [credUsed, credDumped]).length = 1 ∧
    (updateDCred (newDCred credUsed) credDumped).reuse_count =
      (credGroup [credUsed, credDumped]
        (dKey (updateDCred (newDCred credUsed) credDumped))).length :=
  ⟨((claim3_cred_dedup [credUsed, credDumped]).2.1 credUsed credDumped
      (by decide)).1,
   ((claim3_cred_dedup [credUsed, credDumped]).2.2
      (updateDCred (newDCred credUsed) credDumped) (by decide)).1⟩

/-- C4 counterexample: the two rows form one case-insensitive group; the
second row carries a (truthy) pillage-origin reference, yet the merged
record's provenance is `"used"` — `pillaged_from` is fixed when the first
row creates the entry, so provenance is *not* "dumped if any row carries a
pillage-origin reference". -/
theorem claim4_provenance_not_any_row :
    credKey credUsed = credKey credDumped ∧
    pyTruthyInt credDumped.pillaged_from = true ∧
    (dedupCreds [credUsed, credDumped]).map provenance = ["used"] := by
  refine ⟨by decide, rfl, by decide⟩

/-- C4 (amended): every deduplicated record's `pillaged_from` — and hence
its provenance — comes from the *first* row encountered in its group:
provenance is `"dumped"` iff that first row's pillage reference is truthy,
regardless of what later rows in the group carry. -/
theorem claim4_provenance_from_first_row (rows : List RawCred) :
    ∀ d ∈ dedupCreds rows, ∃ c0 rest,
      credGroup rows (dKey d) = c0 :: rest ∧
      d.pillaged_from = c0.pillaged_from ∧
      provenance d =
        (if pyTruthyInt c0.pillaged_from then "dumped" else "used") := by
  intro d hd
  have hfind : (dedupCreds rows).find? (fun x => dKey x = dKey d) = some d :=
    find?_eq_some_of_mem_nodup_dkey _ d (nodup_dedupCreds rows) hd
  rw [find?_dedupCreds] at hfind
  cases hk : credGroup rows (dKey d) with
  | nil =>
    rw [hk] at hfind
    simp [groupDedup] at hfind
  | cons c0 rest =>
    rw [hk] at hfind
    simp only [groupDedup, Option.some.injEq] at hfind
    subst hfind
    have hpill : (rest.foldl updateDCred (newDCred c0)).pillaged_from =
        c0.pillaged_from := by
      rw [pillaged_foldl_updateDCred]
      rfl
    exact ⟨c0, rest, rfl, hpill, by rw [provenance, hpill]⟩

/-- C4 amended witness: the concrete merged record of the sample pair —
its provenance is that of the first row (`"used"`), not of the
pillage-carrying second row. -/
theorem claim4_provenance_from_first_row_witness :
    ∃ c0 rest, credGroup [credUsed, credDumped]
        (dKey (updateDCred (newDCred credUsed) credDumped)) = c0 :: rest ∧
      (updateDCred (newDCred credUsed) credDumped).pillaged_from =
        c0.pillaged_from ∧
      provenance (updateDCred (newDCred credUsed) credDumped) =
        (if pyTruthyInt c0.pillaged_from then "dumped" else "used") :=
  claim4_provenance_from_first_row [credUsed, credDumped]
    (updateDCred (newDCred credUsed) credDumped) (by decide)

end Dashboard
